import Mathlib

/-!
Shallow embedding of the task-list state machine of `src/src/App.tsx`
(the "Daily Constants" tracker): the Task data model, the Task Store
operations (`addTask`, `toggleTask`, `deleteTask`, `handleDragEnd`), the
localStorage persistence effect, and the startup loader.  Machine-level
JavaScript behaviours that matter to the claims (string truthiness,
`Array.prototype.splice` index normalisation, `findIndex` returning -1,
`JSON.stringify` field emission, `JSON.parse` throwing on malformed text)
are embedded explicitly.
-/

namespace Constants

/-- The closed category enumeration of `App.tsx` line 8:
`type Category = 'physical' | 'mental' | 'spiritual' | 'chores'`. -/
inductive Category
  | physical
  | mental
  | spiritual
  | chores
  deriving DecidableEq, Repr

/-- The JSON string value each category serialises to (its TS literal). -/
def Category.jsonName : Category → String
  | .physical => "physical"
  | .mental => "mental"
  | .spiritual => "spiritual"
  | .chores => "chores"

/-- The `Task` interface of `App.tsx` lines 10-17.  The TS fields
`isNew?: boolean` and `isDeleting?: boolean` are optional: `none` models an
absent property (JS `undefined`), `some b` a property explicitly set to `b`. -/
structure Task where
  id : String
  text : String
  completed : Bool
  category : Category
  isNew : Option Bool := none
  isDeleting : Option Bool := none
  deriving DecidableEq, Repr

/-- JS truthiness of an optional boolean property: `undefined` and `false`
are falsy, `true` is truthy. -/
def jsTruthy (b : Option Bool) : Bool := b.getD false

/-- The truthiness test `if (newTask.trim())` of `App.tsx` line 137: a JS
string is truthy iff it is non-empty, and `s.trim()` (whitespace removed
from both ends) is non-empty iff some character of `s` is not whitespace.
Stated on the character data of the string so that it evaluates by kernel
reduction (`String.trim` itself is defined by well-founded recursion on
byte positions and does not reduce). -/
def trimmedNonempty (s : String) : Bool := s.data.any fun c => !c.isWhitespace

/-- The fixed default collection, `defaultTasks` of `App.tsx` lines 19-24. -/
def defaultTasks : List Task :=
  [{ id := "1", text := "Morning workout", completed := false, category := .physical },
   { id := "2", text := "Meditation", completed := false, category := .spiritual },
   { id := "3", text := "Read for 30 minutes", completed := false, category := .mental },
   { id := "4", text := "Make the bed", completed := false, category := .chores }]

/-- `addTask` (`App.tsx` lines 135-155), as a function of the controlled
input state `newTask`, the selected category, the value of `Date.now()` at
the click (a natural number of milliseconds), and the current collection.
`if (newTask.trim())` appends the new task record exactly when the trimmed
text is a non-empty (truthy) string; the stored `text` is the raw
`newTask`, the id is `Date.now().toString()`, and `isNew: true` is set. -/
def addTask (newTask : String) (selectedCategory : Category) (now : Nat)
    (tasks : List Task) : List Task :=
  if trimmedNonempty newTask then
    tasks ++ [{ id := toString now, text := newTask, completed := false,
                category := selectedCategory, isNew := some true }]
  else tasks

/-- The deferred `setTimeout` body inside `addTask` (lines 149-153): clears
the `isNew` flag (sets the property to `false`, keeping it present) on the
task with the given id. -/
def clearIsNew (taskId : String) (tasks : List Task) : List Task :=
  tasks.map fun t => if t.id == taskId then { t with isNew := some false } else t

/-- `toggleTask` (`App.tsx` lines 157-161): maps over the collection,
flipping `completed` on every task whose id matches. -/
def toggleTask (taskId : String) (tasks : List Task) : List Task :=
  tasks.map fun t => if t.id == taskId then { t with completed := !t.completed } else t

/-- The immediate phase of `deleteTask` (`App.tsx` lines 163-168): sets
`isDeleting: true` on the task with the matching id. -/
def deleteTask (taskId : String) (tasks : List Task) : List Task :=
  tasks.map fun t => if t.id == taskId then { t with isDeleting := some true } else t

/-- The deferred `setTimeout` body of `deleteTask` (lines 170-172): removes
every task with the matching id from the collection. -/
def deleteTaskAfterDelay (taskId : String) (tasks : List Task) : List Task :=
  tasks.filter fun t => t.id != taskId

/-- JS `Array.prototype.findIndex`: the index of the first element
satisfying the predicate, or `-1` when there is none. -/
def jsFindIndex (p : Task → Bool) (l : List Task) : Int :=
  match l.findIdx? p with
  | some i => (i : Int)
  | none => -1

/-- JS `Array.prototype.splice` start-index normalisation: a negative
start counts back from the end (clamped at 0), a non-negative start is
clamped at the length. -/
def spliceStart (len : Nat) (start : Int) : Nat :=
  if start < 0 then ((len : Int) + start).toNat else min start.toNat len

/-- `handleDragEnd` (`App.tsx` lines 175-190) as a function of the
collection, the dragged id (`active.id`) and the drop target
(`over`, `none` when the drop had no target).  When `over` is present and
the two ids differ, the body computes `oldIndex`/`newIndex` by
`findIndex` (possibly `-1`), removes one element with
`splice(oldIndex, 1)` and reinserts it with `splice(newIndex, 0, moved)`,
both under JS index normalisation.  The result is `none` only in the case
(empty collection, distinct ids) where the JS code would insert the
`undefined` produced by the empty removal, a value outside the `Task`
type. -/
def handleDragEnd (items : List Task) (activeId : String) (over : Option String) :
    Option (List Task) :=
  match over with
  | none => some items
  | some overId =>
    if activeId ≠ overId then
      let oldIndex := jsFindIndex (fun t => t.id == activeId) items
      let newIndex := jsFindIndex (fun t => t.id == overId) items
      let start1 := spliceStart items.length oldIndex
      match items[start1]? with
      | none => none
      | some movedItem =>
        let removed := items.eraseIdx start1
        some (removed.insertIdx (spliceStart removed.length newIndex) movedItem)
    else some items

/-! Persistence.  The persist effect (`App.tsx` lines 124-126) runs
`localStorage.setItem('tasks', JSON.stringify(tasks.filter(task => !task.isDeleting)))`.
`JSON.stringify` emits, for each surviving task object, its own
properties in declaration order, skipping properties whose value is
`undefined`; we model the serialised text by that list of
key/value fields. -/

/-- A primitive JSON value as it appears in a serialised task record. -/
inductive JsonVal
  | str (s : String)
  | bool (b : Bool)
  deriving DecidableEq, Repr

/-- The field list `JSON.stringify` emits for one task object: the four
required fields always, then `isNew` and `isDeleting` exactly when the
property is present (set to `true` or `false`) on the object. -/
def taskToJson (t : Task) : List (String × JsonVal) :=
  [("id", .str t.id), ("text", .str t.text), ("completed", .bool t.completed),
   ("category", .str t.category.jsonName)]
  ++ (match t.isNew with | some b => [("isNew", JsonVal.bool b)] | none => [])
  ++ (match t.isDeleting with | some b => [("isDeleting", JsonVal.bool b)] | none => [])

/-- The sub-collection the persist effect serialises:
`tasks.filter(task => !task.isDeleting)` of `App.tsx` line 125. -/
def persistedTasks (tasks : List Task) : List Task :=
  tasks.filter fun t => !jsTruthy t.isDeleting

/-- The value the persist effect writes under the key `'tasks'`: the
serialisation of the collection with every task whose `isDeleting`
property is truthy filtered out (`App.tsx` line 125). -/
def persistedValue (tasks : List Task) : List (List (String × JsonVal)) :=
  (persistedTasks tasks).map taskToJson

/-- Reading one persisted record back as a task: look up each field by
key.  Inverts `taskToJson` on the records that `taskToJson` produces. -/
def parseTaskJson (fields : List (String × JsonVal)) : Option Task :=
  match fields.lookup "id", fields.lookup "text", fields.lookup "completed",
        fields.lookup "category" with
  | some (.str id), some (.str text), some (.bool completed), some (.str cat) =>
    let category? : Option Category :=
      if cat = "physical" then some .physical
      else if cat = "mental" then some .mental
      else if cat = "spiritual" then some .spiritual
      else if cat = "chores" then some .chores
      else none
    match category? with
    | some category =>
      let optBool : Option JsonVal → Option Bool
        | some (.bool b) => some b
        | _ => none
      some { id := id, text := text, completed := completed, category := category,
             isNew := optBool (fields.lookup "isNew"),
             isDeleting := optBool (fields.lookup "isDeleting") }
    | none => none
  | _, _, _, _ => none

/-- Reading a persisted array of records back as a collection; fails if
any record fails to read. -/
def parseTasks : List (List (String × JsonVal)) → Option (List Task)
  | [] => some []
  | f :: fs =>
    match parseTaskJson f, parseTasks fs with
    | some t, some ts => some (t :: ts)
    | _, _ => none

/-- The state of `localStorage.getItem('tasks')` at startup, abstracted by
its parse outcome: `absent` when the call returns `null` (or the falsy
empty string), `malformed` when it returns a string on which `JSON.parse`
throws, and `taskArray ts` when it returns a string parsing to an array of
task records. -/
inductive StoredValue
  | absent
  | malformed
  | taskArray (ts : List Task)

/-- The exception a JS statement can raise. -/
inductive JsError
  | syntaxError
  deriving DecidableEq, Repr

/-- The `useState` initializer of `App.tsx` lines 115-118:
`savedTasks ? JSON.parse(savedTasks) : defaultTasks`.  A falsy
(absent) stored value falls back to `defaultTasks`; a present value is
handed to `JSON.parse` with no surrounding try/catch, so a malformed value
raises the `SyntaxError` that `JSON.parse` throws. -/
def loadInitialTasks : StoredValue → Except JsError (List Task)
  | .absent => .ok defaultTasks
  | .malformed => .error .syntaxError
  | .taskArray ts => .ok ts

/-! Theorems. -/

/-- C1.  The claim says a malformed stored value falls back to the four
default tasks with no crash.  The initializer has no try/catch around
`JSON.parse`, so a malformed value raises the parser's `SyntaxError`
instead of producing `defaultTasks`; only the absent case falls back. -/
theorem loadInitialTasks_malformed_raises :
    loadInitialTasks .malformed = .error .syntaxError ∧
    loadInitialTasks .absent = .ok defaultTasks :=
  ⟨rfl, rfl⟩

/-- C6.  ToggleComplete is an involution: toggling the same id twice
restores every task (the matched task's `completed` is flipped twice, all
other fields and tasks are untouched). -/
theorem toggleTask_involution (taskId : String) (tasks : List Task) :
    toggleTask taskId (toggleTask taskId tasks) = tasks := by
  induction tasks with
  | nil => rfl
  | cons t ts ih =>
    obtain ⟨id, text, completed, category, isNew, isDeleting⟩ := t
    by_cases h : id == taskId <;>
      simp_all [toggleTask, List.map_cons]

/-- C8.  Create(text, category): with blank (whitespace-only) text the
collection is unchanged; with non-blank text exactly the new record —
id `Date.now().toString()`, the raw text, `completed := false`, the chosen
category, `isNew := true` — is appended and all existing tasks are kept
unchanged in place. -/
theorem addTask_spec (newTask : String) (cat : Category) (now : Nat) (tasks : List Task) :
    (trimmedNonempty newTask = false → addTask newTask cat now tasks = tasks) ∧
    (trimmedNonempty newTask = true →
      addTask newTask cat now tasks =
        tasks ++ [{ id := toString now, text := newTask, completed := false,
                    category := cat, isNew := some true, isDeleting := none }]) := by
  constructor <;> intro h <;> simp [addTask, h]

/-- Witness for C8 at concrete inputs: blank text is a no-op on the
defaults, "Stretch" is appended as the fifth task. -/
theorem addTask_spec_witness :
    addTask "   " Category.physical 5 defaultTasks = defaultTasks ∧
    addTask "Stretch" Category.physical 5 defaultTasks =
      defaultTasks ++ [{ id := toString 5, text := "Stretch", completed := false,
                         category := Category.physical, isNew := some true,
                         isDeleting := none }] :=
  ⟨(addTask_spec "   " Category.physical 5 defaultTasks).1 (by decide),
   (addTask_spec "Stretch" Category.physical 5 defaultTasks).2 (by decide)⟩

/-- C9.  ToggleComplete and SoftDelete (both its immediate marking phase
and its deferred removal phase) with an id matching no task leave the
collection unchanged. -/
theorem missing_id_noop (taskId : String) (tasks : List Task)
    (h : ∀ t ∈ tasks, t.id ≠ taskId) :
    toggleTask taskId tasks = tasks ∧ deleteTask taskId tasks = tasks ∧
    deleteTaskAfterDelay taskId tasks = tasks := by
  have hb : ∀ t ∈ tasks, (t.id == taskId) = false := fun t ht => by
    simpa using h t ht
  refine ⟨?_, ?_, ?_⟩
  · calc toggleTask taskId tasks
        = tasks.map id := List.map_congr_left fun t ht => by simp [hb t ht]
      _ = tasks := tasks.map_id
  · calc deleteTask taskId tasks
        = tasks.map id := List.map_congr_left fun t ht => by simp [hb t ht]
      _ = tasks := tasks.map_id
  · exact List.filter_eq_self.2 fun t ht => by simpa using h t ht

/-- Witness for C9: the id "99" matches none of the four default tasks and
all three phases leave them unchanged. -/
theorem missing_id_noop_witness :
    toggleTask "99" defaultTasks = defaultTasks ∧
    deleteTask "99" defaultTasks = defaultTasks ∧
    deleteTaskAfterDelay "99" defaultTasks = defaultTasks :=
  missing_id_noop "99" defaultTasks (by decide)

/-- C10.  Create stores the raw, untrimmed text: when the trimmed text is
non-empty the text fields of the result are exactly the old ones followed
by the submitted string itself (trimming is only the emptiness test). -/
theorem addTask_keeps_raw_text (newTask : String) (cat : Category) (now : Nat)
    (tasks : List Task) (h : trimmedNonempty newTask = true) :
    (addTask newTask cat now tasks).map Task.text = tasks.map Task.text ++ [newTask] := by
  simp [addTask, h]

/-- Witness for C10: text with surrounding whitespace is stored verbatim. -/
theorem addTask_keeps_raw_text_witness :
    (addTask "  pad  " Category.mental 7 defaultTasks).map Task.text =
      defaultTasks.map Task.text ++ ["  pad  "] :=
  addTask_keeps_raw_text "  pad  " Category.mental 7 defaultTasks (by decide)

/-- Reading back the record serialised for one task recovers the task,
all six fields included. -/
theorem parseTaskJson_taskToJson (t : Task) : parseTaskJson (taskToJson t) = some t := by
  obtain ⟨id, text, completed, category, isNew, isDeleting⟩ := t
  cases category <;> cases isNew <;> cases isDeleting <;> rfl

/-- C3 counterexample.  The claim says the transient flags are excluded
from the persisted serialization and each persisted record carries exactly
the four fields id, text, completed, category.  On a collection holding a
freshly created task (`isNew: true`, not deleting), the persisted value
contains a record with an `isNew` field: the persist effect only filters
out whole tasks whose `isDeleting` is truthy, it never strips fields. -/
theorem persistedValue_keeps_isNew_field :
    ((persistedValue
        [{ id := "9", text := "x", completed := false, category := Category.physical,
           isNew := some true, isDeleting := none }]).any
      fun record => record.any fun kv => kv.1 == "isNew") = true := by
  rfl

/-- C3 amended.  Save then Load round-trips: parsing the persisted value
yields exactly the input collection minus the tasks whose `isDeleting`
property is truthy, in the same relative order, with every field of each
surviving task preserved verbatim — including its transient `isNew` and
`isDeleting` properties when present, which are serialised as-is rather
than excluded. -/
theorem save_load_roundtrip (tasks : List Task) :
    parseTasks (persistedValue tasks) = some (tasks.filter fun t => !jsTruthy t.isDeleting) := by
  rw [persistedValue, persistedTasks]
  generalize tasks.filter (fun t => !jsTruthy t.isDeleting) = l
  induction l with
  | nil => rfl
  | cons t ts ih => simp [parseTasks, parseTaskJson_taskToJson, ih]

/-- C7.  After SoftDelete(id): the persisted view of the marked collection
contains no task with a truthy `isDeleting` flag and no task with the
deleted id (exclusion is immediate, before the removal delay), and once
the removal delay fires the in-memory collection contains no task with
that id. -/
theorem softDelete_persistence (taskId : String) (tasks : List Task)
    (hmem : taskId ∈ tasks.map Task.id) :
    (∀ t ∈ persistedTasks (deleteTask taskId tasks), jsTruthy t.isDeleting = false) ∧
    (∀ t ∈ persistedTasks (deleteTask taskId tasks), t.id ≠ taskId) ∧
    (∀ t ∈ deleteTaskAfterDelay taskId (deleteTask taskId tasks), t.id ≠ taskId) := by
  refine ⟨?_, ?_, ?_⟩
  · intro t ht
    simpa using (List.mem_filter.1 ht).2
  · intro t ht
    obtain ⟨htl, hp⟩ := List.mem_filter.1 ht
    rw [deleteTask, List.mem_map] at htl
    obtain ⟨s, hs, rfl⟩ := htl
    by_cases hid : (s.id == taskId) = true
    · rw [if_pos hid] at hp
      simp [jsTruthy] at hp
    · rw [if_neg (by simpa using hid)]
      simpa using hid
  · intro t ht
    simpa using (List.mem_filter.1 ht).2

/-- Witness for C7 at the defaults and id "4" ("Make the bed"). -/
theorem softDelete_persistence_witness :
    "4" ∈ defaultTasks.map Task.id ∧
    ((∀ t ∈ persistedTasks (deleteTask "4" defaultTasks), jsTruthy t.isDeleting = false) ∧
     (∀ t ∈ persistedTasks (deleteTask "4" defaultTasks), t.id ≠ "4") ∧
     (∀ t ∈ deleteTaskAfterDelay "4" (deleteTask "4" defaultTasks), t.id ≠ "4")) :=
  ⟨by decide, softDelete_persistence "4" defaultTasks (by decide)⟩

/-- `spliceStart` on an in-range non-negative index is that index. -/
theorem spliceStart_coe {len i : Nat} (h : i ≤ len) : spliceStart len (i : Int) = i := by
  unfold spliceStart
  split <;> omega

/-- Characterisation of `handleDragEnd` when both ids occur in the
collection and differ: the task at the source index `i` is removed and
reinserted at the target's original index `j`. -/
theorem handleDragEnd_of_findIdx {items : List Task} {a b : String} {i j : Nat} {x : Task}
    (hi : items.findIdx? (fun t => t.id == a) = some i)
    (hj : items.findIdx? (fun t => t.id == b) = some j)
    (hab : a ≠ b) (hx : items[i]? = some x) :
    handleDragEnd items a (some b) = some ((items.eraseIdx i).insertIdx j x) := by
  obtain ⟨hi', -, -⟩ := List.findIdx?_eq_some_iff_getElem.1 hi
  obtain ⟨hj', -, -⟩ := List.findIdx?_eq_some_iff_getElem.1 hj
  have hlen_er : (items.eraseIdx i).length = items.length - 1 :=
    List.length_eraseIdx_of_lt hi'
  have hj'' : j ≤ (items.eraseIdx i).length := by omega
  simp only [handleDragEnd, jsFindIndex, hi, hj]
  rw [if_pos hab, spliceStart_coe (Nat.le_of_lt hi'), hx, spliceStart_coe hj'']

/-- C2 counterexample.  The claim says a Reorder whose source id is
missing from the collection is a no-op.  With the missing id "99" and
target id "1" on the default collection, `findIndex` returns -1 for the
source, JS `splice(-1, 1)` removes the *last* task, and it is reinserted
at the front: the collection changes. -/
theorem handleDragEnd_missing_id_changes_list :
    handleDragEnd defaultTasks "99" (some "1") ≠ some defaultTasks := by
  decide

/-- C2 amended.  Reorder(sourceId, targetId): when there is no drop target
or the two ids are equal the collection is unchanged; when both ids occur
in the collection and differ, the source task is removed from its index
and reinserted at the target's original index, all other relative
orderings preserved.  (When an id is missing, `findIndex` yields -1 and
JS splice's negative-index normalisation applies, so no no-op guarantee
holds.) -/
theorem handleDragEnd_spec (items : List Task) (a b : String) :
    handleDragEnd items a none = some items ∧
    (a = b → handleDragEnd items a (some b) = some items) ∧
    (∀ (i j : Nat) (x : Task),
      items.findIdx? (fun t => t.id == a) = some i →
      items.findIdx? (fun t => t.id == b) = some j →
      a ≠ b → items[i]? = some x →
      handleDragEnd items a (some b) = some ((items.eraseIdx i).insertIdx j x)) := by
  refine ⟨rfl, fun h => by simp [handleDragEnd, h],
    fun i j x hi hj hab hx => handleDragEnd_of_findIdx hi hj hab hx⟩

/-- Witness for C2 (amended): dragging task "1" onto task "3" in the
default collection moves it to index 2. -/
theorem handleDragEnd_spec_witness :
    handleDragEnd defaultTasks "1" (some "3") =
      some ((defaultTasks.eraseIdx 0).insertIdx 2
        { id := "1", text := "Morning workout", completed := false,
          category := Category.physical, isNew := none, isDeleting := none }) :=
  (handleDragEnd_spec defaultTasks "1" "3").2.2 0 2 _
    (by decide) (by decide) (by decide) (by decide)

/-- C4 counterexample.  The claim says every Create generates a unique id,
unique across the collection at all times.  Ids are `Date.now().toString()`,
so two Creates falling in the same millisecond (here both at clock value 5)
produce the same id "5" and the resulting collection has duplicate ids. -/
theorem addTask_same_clock_duplicate_ids :
    ¬ ((addTask "b" Category.physical 5
          (addTask "a" Category.physical 5 [])).map Task.id).Nodup := by
  decide

/-- A batch of Create operations applied in order; each triple carries the
submitted text, the selected category, and the `Date.now()` reading of the
submission. -/
def applyCreates (ops : List (String × Category × Nat)) (tasks : List Task) : List Task :=
  ops.foldl (fun acc op => addTask op.1 op.2.1 op.2.2 acc) tasks

/-- C4 amended.  For a sequence of Creates with non-blank text, if the
clock readings of the sequence are pairwise distinct and avoid the ids
already in the starting collection (and those are themselves distinct),
then the result is the starting collection followed by exactly one new
entry per Create, each with `completed := false`, and all ids in the
resulting collection are unique.  Without the distinct-clock hypothesis
uniqueness fails (see the same-millisecond counterexample). -/
theorem create_sequence_spec (ops : List (String × Category × Nat)) (tasks : List Task)
    (hne : ∀ op ∈ ops, trimmedNonempty op.1 = true)
    (hnd : (tasks.map Task.id ++ ops.map fun op => toString op.2.2).Nodup) :
    applyCreates ops tasks =
      tasks ++ (ops.map fun op =>
        { id := toString op.2.2, text := op.1, completed := false,
          category := op.2.1, isNew := some true, isDeleting := none }) ∧
    (applyCreates ops tasks).length = tasks.length + ops.length ∧
    ((applyCreates ops tasks).map Task.id).Nodup := by
  have heq : ∀ ts : List Task, (∀ op ∈ ops, trimmedNonempty op.1 = true) →
      applyCreates ops ts = ts ++ (ops.map fun op =>
        { id := toString op.2.2, text := op.1, completed := false,
          category := op.2.1, isNew := some true, isDeleting := none }) := by
    clear hne hnd
    induction ops with
    | nil => intro ts _; simp [applyCreates]
    | cons op ops ih =>
      intro ts hall
      have h1 : trimmedNonempty op.1 = true := hall op (List.mem_cons_self _ _)
      calc applyCreates (op :: ops) ts
          = applyCreates ops (addTask op.1 op.2.1 op.2.2 ts) := rfl
        _ = addTask op.1 op.2.1 op.2.2 ts ++ _ :=
            ih _ fun o ho => hall o (List.mem_cons_of_mem _ ho)
        _ = _ := by rw [addTask, if_pos h1]; simp
  refine ⟨heq tasks hne, ?_, ?_⟩
  · rw [heq tasks hne]; simp
  · rw [heq tasks hne]
    simpa [List.map_append, List.map_map, Function.comp] using hnd

/-- Witness for C4 (amended): two Creates at distinct clock values 5 and 6
on top of the defaults keep all ids unique. -/
theorem create_sequence_spec_witness :
    (([("a", Category.physical, 5), ("b", Category.mental, 6)].all
        fun op => trimmedNonempty op.1) = true) ∧
    ((applyCreates [("a", Category.physical, 5), ("b", Category.mental, 6)]
        defaultTasks).map Task.id).Nodup :=
  ⟨by decide,
   (create_sequence_spec [("a", Category.physical, 5), ("b", Category.mental, 6)]
      defaultTasks (by decide) (by decide)).2.2⟩

/-- Inserting at an in-range position is a permutation with consing. -/
theorem perm_insertIdx {α : Type*} (x : α) :
    ∀ (n : Nat) (l : List α), n ≤ l.length → (l.insertIdx n x).Perm (x :: l)
  | 0, l, _ => List.Perm.refl _
  | n + 1, [], h => by simp at h
  | n + 1, a :: l, h => by
    have ih := perm_insertIdx x n l (Nat.le_of_succ_le_succ h)
    exact (ih.cons a).trans (List.Perm.swap x a l)

/-- A list is a permutation of its element at an index consed onto the
list with that index erased. -/
theorem perm_eraseIdx_getElem {α : Type*} (l : List α) :
    ∀ (i : Nat) (h : i < l.length), l.Perm (l[i] :: l.eraseIdx i) := by
  induction l with
  | nil => intro i h; simp at h
  | cons a l ih =>
    intro i h
    cases i with
    | zero => exact List.Perm.refl _
    | succ n =>
      have hn : n < l.length := by simpa using h
      exact ((ih n hn).cons a).trans (List.Perm.swap _ _ _)

/-- Reinserting the erased element at its own index restores the list. -/
theorem insertIdx_getElem_eraseIdx {α : Type*} :
    ∀ (l : List α) (i : Nat) (h : i < l.length), (l.eraseIdx i).insertIdx i l[i] = l
  | a :: _, 0, _ => rfl
  | a :: l, i + 1, h =>
    congrArg (a :: ·) (insertIdx_getElem_eraseIdx l i (by simpa using h))

/-- In a collection with pairwise distinct ids, searching for the id of
the element at index `k` finds exactly index `k`. -/
theorem findIdx?_id_of_nodup {l : List Task} (hnd : (l.map Task.id).Nodup)
    (k : Nat) (hk : k < l.length) :
    l.findIdx? (fun t => t.id == l[k].id) = some k := by
  rw [List.findIdx?_eq_some_iff_getElem]
  refine ⟨hk, by simp, fun m hm => ?_⟩
  have hm' : m < l.length := hm.trans hk
  have hmm : m < (l.map Task.id).length := by simpa using hm'
  have hkk : k < (l.map Task.id).length := by simpa using hk
  have hne : (l.map Task.id)[m] ≠ (l.map Task.id)[k] := fun he =>
    absurd ((@List.Nodup.getElem_inj_iff _ _ hnd m hmm k hkk).1 he) (Nat.ne_of_lt hm)
  simpa using hne

/-- C5.  Reorder is invertible: with distinct ids throughout, after
reordering the task with id `a` (at index `i`) to the position of the task
with id `b` (index `j`), reordering `a` onto the id of whatever task now
occupies index `i` restores the original collection exactly. -/
theorem reorder_invertible (items : List Task) (a b : String) (i j : Nat)
    (hnd : (items.map Task.id).Nodup)
    (hi : items.findIdx? (fun t => t.id == a) = some i)
    (hj : items.findIdx? (fun t => t.id == b) = some j)
    (hab : a ≠ b)
    (r1 : List Task) (h1 : handleDragEnd items a (some b) = some r1)
    (c : Task) (hc : r1[i]? = some c) :
    handleDragEnd r1 a (some c.id) = some items := by
  obtain ⟨hi', hpi, -⟩ := List.findIdx?_eq_some_iff_getElem.1 hi
  obtain ⟨hj', hpj, -⟩ := List.findIdx?_eq_some_iff_getElem.1 hj
  have haid : items[i].id = a := by simpa using hpi
  have hbid : items[j].id = b := by simpa using hpj
  have hij : i ≠ j := by
    intro he
    subst he
    exact hab (by rw [← haid]; exact hbid)
  -- characterise the first reorder
  have h1' := handleDragEnd_of_findIdx hi hj hab (List.getElem?_eq_getElem hi')
  rw [h1] at h1'
  have hr1 : r1 = (items.eraseIdx i).insertIdx j items[i] := Option.some.inj h1'
  have hlen_er : (items.eraseIdx i).length = items.length - 1 :=
    List.length_eraseIdx_of_lt hi'
  have hj'' : j ≤ (items.eraseIdx i).length := by omega
  have hlenr1 : r1.length = items.length := by
    rw [hr1, List.length_insertIdx j _ hj'']; omega
  have hilt : i < r1.length := by omega
  have hjlt : j < r1.length := by omega
  -- ids stay pairwise distinct: the first reorder permutes the collection
  have hperm : r1.Perm items := by
    rw [hr1]
    exact (perm_insertIdx _ j _ hj'').trans (perm_eraseIdx_getElem items i hi').symm
  have hnd1 : (r1.map Task.id).Nodup := (hperm.symm.map Task.id).nodup hnd
  -- the occupant of slot i, and where a now sits
  have hcr1 : c = r1[i] := by
    have hg := List.getElem?_eq_getElem hilt
    rw [hc] at hg
    exact Option.some.inj hg
  have hraj? : r1[j]? = some items[i] := by
    have hb : j < ((items.eraseIdx i).insertIdx j items[i]).length := by
      rw [List.length_insertIdx j _ hj'']; omega
    rw [hr1, List.getElem?_eq_getElem hb, List.getElem_insertIdx_self _ _ _ hj'']
  have hgj : r1[j] = items[i] := by
    have hg := List.getElem?_eq_getElem hjlt
    rw [hraj?] at hg
    exact (Option.some.inj hg).symm
  -- first-occurrence indices in r1
  have hfa : r1.findIdx? (fun t => t.id == a) = some j := by
    have hfind := findIdx?_id_of_nodup hnd1 j hjlt
    rw [hgj, haid] at hfind
    exact hfind
  have hfc : r1.findIdx? (fun t => t.id == c.id) = some i := by
    have hfind := findIdx?_id_of_nodup hnd1 i hilt
    rw [← hcr1] at hfind
    exact hfind
  have hca : a ≠ c.id := by
    intro he
    have himm : i < (r1.map Task.id).length := by simpa using hilt
    have hjmm : j < (r1.map Task.id).length := by simpa using hjlt
    have hidseq : (r1.map Task.id)[j] = (r1.map Task.id)[i] := by
      simp only [List.getElem_map]
      rw [hgj, haid, ← hcr1, ← he]
    exact hij ((@List.Nodup.getElem_inj_iff _ _ hnd1 j hjmm i himm).1 hidseq).symm
  -- the second reorder undoes the first
  have hfin := handleDragEnd_of_findIdx hfa hfc hca hraj?
  rw [hfin, hr1, List.eraseIdx_insertIdx, insertIdx_getElem_eraseIdx items i hi']

/-- Witness for C5: in the defaults, move task "1" onto task "2"
(collection becomes 2,1,3,4; slot 0 now holds task "2"), then move "1"
onto "2" again: the original order 1,2,3,4 is restored. -/
theorem reorder_invertible_witness :
    handleDragEnd
      [{ id := "2", text := "Meditation", completed := false, category := Category.spiritual },
       { id := "1", text := "Morning workout", completed := false, category := Category.physical },
       { id := "3", text := "Read for 30 minutes", completed := false, category := Category.mental },
       { id := "4", text := "Make the bed", completed := false, category := Category.chores }]
      "1" (some "2") = some defaultTasks :=
  reorder_invertible defaultTasks "1" "2" 0 1 (by decide) (by decide) (by decide)
    (by decide) _ (by decide)
    { id := "2", text := "Meditation", completed := false, category := Category.spiritual }
    (by decide)

end Constants
